import Mathlib

/-!
Verification development for the `shadermake` shader build tool.

The embedding models the three source files (`lib.rs`, `manifest.rs`,
`main.rs`).  Filesystem paths are modelled as an absoluteness flag plus a
list of components; `FsPath.join` follows the Rust `Path::join` semantics
(joining an absolute path replaces the base).  Each relative path declared
in a manifest (a shader's `path` field or a subdirectory name) is treated
as a single path component.  The external collaborators that the spec
places out of scope (the naga front-end and back-ends, the shaderc
compiler, and the success of `fs::write`) are modelled as oracle functions
collected in a `Toolchain` record over an abstract module type `M`;
everything the repository itself implements is translated directly from
the source.  Bytes are modelled as `List Nat`.
-/

/-- A filesystem path: whether it is absolute, plus its components.
Models Rust `PathBuf`. -/
structure FsPath where
  absolute : Bool
  components : List String
deriving DecidableEq, Repr

/-- Rust `Path::join`: joining with an absolute path replaces the base
path entirely; joining with a relative path appends its components. -/
def FsPath.join (p q : FsPath) : FsPath :=
  if q.absolute then q else ⟨p.absolute, p.components ++ q.components⟩

/-- Splits a character list at its last '.', returning the parts before
and after it, or `none` when it contains no '.'. -/
def splitLastDot : List Char → Option (List Char × List Char)
  | [] => none
  | c :: rest =>
    match splitLastDot rest with
    | some (pre, suf) => some (c :: pre, suf)
    | none => if c = '.' then some ([], rest) else none

/-- Rust `Path::extension` applied to a file name: the portion after the
last '.', or `none` when there is no '.' or the only '.' is the leading
character of the name. -/
def fileExt (name : String) : Option String :=
  match splitLastDot name.toList with
  | some (pre, suf) => if pre = [] then none else some (String.mk suf)
  | none => none

/-- Rust `Path::file_stem` applied to a file name: the portion before the
last '.', or the whole name when `fileExt` is `none`. -/
def fileStem (name : String) : String :=
  match splitLastDot name.toList with
  | some (pre, _) => if pre = [] then name else String.mk pre
  | none => name

/-- Rust `PathBuf::set_extension` applied to a file name: the stem
followed by `"." ++ e` (just the stem when `e` is empty). -/
def setExtName (name e : String) : String :=
  if e = "" then fileStem name else fileStem name ++ "." ++ e

/-- `setExtName` applied to the last component of a component list. -/
def setExtComps (e : String) : List String → List String
  | [] => []
  | [f] => [setExtName f e]
  | c :: d :: r => c :: setExtComps e (d :: r)

/-- Rust `PathBuf::set_extension` on a whole path: rewrite the final
component; a path with no components is unchanged. -/
def FsPath.setExt (p : FsPath) (e : String) : FsPath :=
  ⟨p.absolute, setExtComps e p.components⟩

/-- The last component of a path, if any (Rust `Path::file_name`). -/
def FsPath.fileName (p : FsPath) : Option String :=
  p.components.getLast?

/-- Rust `Path::extension` on a whole path. -/
def FsPath.extOf (p : FsPath) : Option String :=
  p.fileName.bind fileExt

/-- The "stem data" of a path: its directory components paired with the
file stem of its final component (`none` for an empty path).  This is the
data the spec's injectivity property calls the path's stem. -/
def stemComps : List String → Option (List String × String)
  | [] => none
  | [f] => some ([], fileStem f)
  | c :: d :: r => (stemComps (d :: r)).map (fun pr => (c :: pr.1, pr.2))

/-- Path-level view of `stemComps`. -/
def FsPath.stems (p : FsPath) : Option (List String × String) :=
  stemComps p.components

/-- Models `pathdiff::diff_paths(p, base)` in the configuration the
program produces (both paths of equal absoluteness with `base` a prefix
of `p`): strip the prefix, yielding a relative path.  Any other
configuration is modelled as failure (`lib.rs` maps it to the
"no base path" error). -/
def diffPaths (p base : FsPath) : Option FsPath :=
  if base.absolute = p.absolute && base.components.isPrefixOf p.components then
    some ⟨false, p.components.drop base.components.length⟩
  else none

/-- manifest.rs: the semantic stage of a shader. -/
inductive ShaderKind where
  | Vertex
  | Fragment
  | Compute
deriving DecidableEq, Repr

/-- manifest.rs: one shader declaration, a relative path plus a stage. -/
structure Shader where
  path : String
  kind : ShaderKind
deriving DecidableEq, Repr

/-- manifest.rs: a parsed manifest; `shaders` keeps the name → declaration
map as an association list (the Rust `HashMap` iteration order is
unspecified, and no property below depends on this order). -/
structure Manifest where
  subdirectories : List String
  shaders : List (String × Shader)
deriving DecidableEq, Repr

/-- Outcome of reading and parsing one manifest file: the file parses as
a manifest or is malformed.  (An absent entry in the manifest filesystem
models an unreadable file.) -/
inductive ManifestRead where
  | malformedFile
  | manifestOk (m : Manifest)
deriving DecidableEq, Repr

/-- The manifest files visible to discovery: path → read outcome. -/
abbrev ManifestFs := List (FsPath × ManifestRead)

/-- Reading the manifest file at `p`: `none` models an unreadable file
(`fs::read_to_string` fails), `some .malformedFile` a file that
`Manifest::from_toml` rejects. -/
def readManifest (fs : ManifestFs) (p : FsPath) : Option ManifestRead :=
  match fs.find? (fun pr => pr.1 = p) with
  | some pr => some pr.2
  | none => none

/-- lib.rs `gather_shaders`: the fixed manifest file name. -/
def manifestFileName : String := "shadermake.toml"

/-- The manifest file path of a directory (`directory.join("shadermake.toml")`). -/
def manifestPath (dir : FsPath) : FsPath :=
  dir.join ⟨false, [manifestFileName]⟩

/-- Joining one declared relative name onto a directory
(`directory.join(&subdirectory)`). -/
def childDir (dir : FsPath) (name : String) : FsPath :=
  dir.join ⟨false, [name]⟩

/-- lib.rs: the compilation target. -/
inductive Target where
  | Spirv
  | Wgsl
  | Glsl
deriving DecidableEq, Repr

/-- lib.rs `Target::extension`. -/
def Target.extension : Target → String
  | .Spirv => "spv"
  | .Wgsl => "wgsl"
  | .Glsl => "glsl"

/-- lib.rs: the detected source language of a shader file. -/
inductive ShaderSourceKind where
  | Wgsl
  | Glsl
deriving DecidableEq, Repr

/-- lib.rs `ShaderSourceKind::guess`: detect the source language from the
file extension by case-sensitive exact match. -/
def ShaderSourceKind.guess (path : FsPath) : Option ShaderSourceKind :=
  match path.extOf with
  | some s =>
    if s = "wgsl" then some .Wgsl
    else if s = "glsl" then some .Glsl
    else none
  | none => none

/-- The three transformation functions the dispatch table can return
(lib.rs returns the corresponding function pointers). -/
inductive CompileFnName where
  | nagaWgsl
  | identity
  | shadercGlsl
deriving DecidableEq, Repr

/-- lib.rs `compile_fn`: the dispatch matrix from (detected source kind,
requested target) to a transformation, or `none` when no path exists. -/
def compile_fn : ShaderSourceKind → Target → Option CompileFnName
  | .Wgsl, .Glsl => some .nagaWgsl
  | .Wgsl, .Spirv => some .nagaWgsl
  | .Wgsl, .Wgsl => some .identity
  | .Glsl, .Spirv => some .shadercGlsl
  | .Glsl, .Wgsl => none
  | .Glsl, .Glsl => some .identity

/-- Result of running Rust code that may `panic!` (the `unreachable!` arm
of `compile_naga`): either a panic with its message, or a returned value. -/
inductive PanicOr (α : Type) where
  | panicked (msg : String)
  | ret (value : α)
deriving DecidableEq, Repr

/-- Functorial action on the returned value of a `PanicOr`. -/
def PanicOr.map (f : α → β) : PanicOr α → PanicOr β
  | .panicked m => .panicked m
  | .ret a => .ret (f a)

/-- The external collaborators of lib.rs, as oracles over an abstract
naga module type `M`: `parseWgsl` models UTF-8 decoding plus
`naga::front::wgsl::parse_str`; `emitSpv` models the SPIR-V back-end
(debug flags, Shader capability, words recast to bytes); `emitGlsl`
models the GLSL back-end at its fixed Desktop-450 profile and "main"
entry point for the given stage; `shadercCompile` models constructing a
fresh shaderc compiler and `compile_into_spirv` with entry point "main";
`writeOk` models whether `fs::write` succeeds at a path with the given
bytes. -/
structure Toolchain (M : Type) where
  parseWgsl : List Nat → Except String M
  emitSpv : M → Except String (List Nat)
  emitGlsl : M → ShaderKind → Except String (List Nat)
  shadercCompile : List Nat → ShaderKind → Except String (List Nat)
  writeOk : FsPath → List Nat → Bool

/-- lib.rs `compile_naga`: emit a parsed module for the target; the
`Target::Wgsl` arm is Rust `unreachable!`, modelled as a panic. -/
def compile_naga (tc : Toolchain M) (module : M) (kind : ShaderKind) (target : Target) :
    PanicOr (Except String (List Nat)) :=
  match target with
  | .Spirv => .ret (tc.emitSpv module)
  | .Glsl => .ret (tc.emitGlsl module kind)
  | .Wgsl => .panicked "internal error: entered unreachable code"

/-- lib.rs `compile_naga_wgsl`: decode and parse WGSL source, then emit
via `compile_naga`. -/
def compile_naga_wgsl (tc : Toolchain M) (source : List Nat) (kind : ShaderKind)
    (target : Target) : PanicOr (Except String (List Nat)) :=
  match tc.parseWgsl source with
  | .error e => .ret (.error e)
  | .ok module => compile_naga tc module kind target

/-- lib.rs `compile_identity`: return the input bytes unchanged,
ignoring stage and target. -/
def compile_identity (source : List Nat) (_ : ShaderKind) (_ : Target) :
    PanicOr (Except String (List Nat)) :=
  .ret (.ok source)

/-- lib.rs `compile_shaderc_glsl`: delegate to the native compiler. -/
def compile_shaderc_glsl (tc : Toolchain M) (source : List Nat) (kind : ShaderKind)
    (_ : Target) : PanicOr (Except String (List Nat)) :=
  .ret (tc.shadercCompile source kind)

/-- Apply the transformation selected by the dispatch table. -/
def runCompileFn (tc : Toolchain M) : CompileFnName → List Nat → ShaderKind → Target →
    PanicOr (Except String (List Nat))
  | .nagaWgsl => fun s k t => compile_naga_wgsl tc s k t
  | .identity => fun s k t => compile_identity s k t
  | .shadercGlsl => fun s k t => compile_shaderc_glsl tc s k t

/-- lib.rs `ShaderToCompile`: a fully resolved worklist entry. -/
structure ShaderToCompile where
  name : String
  path : FsPath
  kind : ShaderKind
deriving DecidableEq, Repr

/-- The worklist entry `gather_shaders` builds for one declaration found
in directory `dir`: name, `dir.join(path)`, and stage. -/
def mkShader (dir : FsPath) (p : String × Shader) : ShaderToCompile :=
  ⟨p.1, dir.join ⟨false, [p.2.path]⟩, p.2.kind⟩

/-- lib.rs `Options`: the global build options. -/
structure Options where
  source_dir : FsPath
  target_dir : FsPath
  target : Target
deriving DecidableEq, Repr

/-- Discovery errors, carrying the offending manifest's path: the file
could not be read, or could not be parsed. -/
inductive GatherError where
  | readFailed (manifest : FsPath)
  | parseFailed (manifest : FsPath)
deriving DecidableEq, Repr

/-- The loop of lib.rs `gather_shaders`: pop a directory off the work
stack, read and parse its manifest (failure aborts the whole discovery),
append a worklist entry per declared shader, and push the declared
subdirectories.  The Rust loop has no termination guard, so the model
takes a fuel argument; `none` means the fuel ran out (the Rust loop would
still be running).  The head of the list is the top of the stack: the
Rust `Vec` pushes the subdirectories in declaration order at the popping
end, hence the reversed block prepended here. -/
def gatherLoop (fs : ManifestFs) : Nat → List FsPath → List ShaderToCompile →
    Option (Except GatherError (List ShaderToCompile))
  | _, [], acc => some (.ok acc)
  | 0, _ :: _, _ => none
  | fuel + 1, dir :: rest, acc =>
    match readManifest fs (manifestPath dir) with
    | none => some (.error (.readFailed (manifestPath dir)))
    | some .malformedFile => some (.error (.parseFailed (manifestPath dir)))
    | some (.manifestOk m) =>
      gatherLoop fs fuel ((m.subdirectories.map (childDir dir)).reverse ++ rest)
        (acc ++ m.shaders.map (mkShader dir))

/-- lib.rs `gather_shaders`: run the discovery loop from the source
root. -/
def gather_shaders (fs : ManifestFs) (source_dir : FsPath) (fuel : Nat) :
    Option (Except GatherError (List ShaderToCompile)) :=
  gatherLoop fs fuel [source_dir] []

/-- The shader source files visible to compilation: path → bytes.  An
absent entry models an unreadable file. -/
abbrev FileFs := List (FsPath × List Nat)

/-- Read a source file (`fs::read`). -/
def lookupFile (files : FileFs) (p : FsPath) : Option (List Nat) :=
  match files.find? (fun pr => pr.1 = p) with
  | some pr => some pr.2
  | none => none

/-- The per-shader error taxonomy of lib.rs `compile`/`compile_source`,
in the order the contexts are attached in the source. -/
inductive CompileError where
  | readFailed (p : FsPath)
  | cannotGuessSourceKind
  | noCompilePath
  | compileFailed (msg : String)
  | noBasePath
  | writeFailed (p : FsPath)
deriving DecidableEq, Repr

/-- lib.rs `compile_source`: detect the source kind from the shader's
path, look up the transformation in the dispatch table, and run it. -/
def compile_source (tc : Toolchain M) (source : List Nat) (shader : ShaderToCompile)
    (options : Options) : PanicOr (Except CompileError (List Nat)) :=
  match ShaderSourceKind.guess shader.path with
  | none => .ret (.error .cannotGuessSourceKind)
  | some source_kind =>
    match compile_fn source_kind options.target with
    | none => .ret (.error .noCompilePath)
    | some cf =>
      match runCompileFn tc cf source shader.kind options.target with
      | .panicked m => .panicked m
      | .ret (.error e) => .ret (.error (.compileFailed e))
      | .ret (.ok bytes) => .ret (.ok bytes)

/-- lib.rs `compile`: read the source bytes, run `compile_source`, derive
the output path (source path relative to the source root, extension
replaced by the target's, joined onto the target root) and write there.
A successful run returns the written (path, bytes) pair; an error writes
nothing.  The silently tolerated `create_dir_all` of the source has no
observable effect here and is not modelled. -/
def compile (tc : Toolchain M) (files : FileFs) (shader : ShaderToCompile)
    (options : Options) : PanicOr (Except CompileError (FsPath × List Nat)) :=
  let source_path := options.source_dir.join shader.path
  match lookupFile files source_path with
  | none => .ret (.error (.readFailed source_path))
  | some source =>
    match compile_source tc source shader options with
    | .panicked m => .panicked m
    | .ret (.error e) => .ret (.error e)
    | .ret (.ok output) =>
      match diffPaths source_path options.source_dir with
      | none => .ret (.error .noBasePath)
      | some base_path =>
        let target_path := (options.target_dir.join base_path).setExt options.target.extension
        if tc.writeOk target_path output then .ret (.ok (target_path, output))
        else .ret (.error (.writeFailed target_path))

/-- The notifications of the lib.rs `Logger` trait, in the order the
trait declares them. -/
inductive LogEvent where
  | shadersGathered (n : Nat)
  | compiling (name : String)
  | compileError (name : String) (e : CompileError)
  | completed
deriving DecidableEq, Repr

/-- Whether an event is the compilation-starting notification. -/
def LogEvent.isCompiling : LogEvent → Bool
  | .compiling _ => true
  | _ => false

/-- The worklist traversal of lib.rs `build` (the rayon `for_each` over
the worklist, modelled sequentially; the claims below only use
order-insensitive facts about it): emit the compiling notification per
shader, run `compile`, and on failure emit the error notification and
clear the shared success flag.  Returns the emitted events, the written
(path, bytes) pairs, and the final value of the success flag. -/
def runShaders (tc : Toolchain M) (files : FileFs) (options : Options) :
    List ShaderToCompile → PanicOr (List LogEvent × List (FsPath × List Nat) × Bool)
  | [] => .ret ([], [], true)
  | s :: rest =>
    match compile tc files s options with
    | .panicked m => .panicked m
    | .ret (.ok pw) =>
      (runShaders tc files options rest).map
        (fun r => (.compiling s.name :: r.1, pw :: r.2.1, r.2.2))
    | .ret (.error e) =>
      (runShaders tc files options rest).map
        (fun r => (.compiling s.name :: .compileError s.name e :: r.1, r.2.1, false))

/-- The observable outcome of a completed lib.rs `build` run: the logger
notifications it emitted, the output files it wrote, and the code passed
to `std::process::exit`. -/
structure BuildResult where
  events : List LogEvent
  written : List (FsPath × List Nat)
  exitCode : Nat
deriving DecidableEq, Repr

/-- lib.rs `build`: discover the worklist (a discovery error aborts the
build, emitting no notification and writing no file), announce the count,
compile every entry, and exit with 0 exactly when the success flag was
never cleared.  `none` models a discovery loop that is still running. -/
def build (tc : Toolchain M) (mfs : ManifestFs) (files : FileFs) (options : Options)
    (fuel : Nat) : Option (Except GatherError (PanicOr BuildResult)) :=
  match gather_shaders mfs options.source_dir fuel with
  | none => none
  | some (.error e) => some (.error e)
  | some (.ok shaders) =>
    some (.ok ((runShaders tc files options shaders).map
      (fun r => ⟨.shadersGathered shaders.length :: r.1, r.2.1,
                 if r.2.2 then 0 else 1⟩)))

/-- The output files a `build` run wrote (none unless it ran to
completion). -/
def buildWrites : Option (Except GatherError (PanicOr BuildResult)) →
    List (FsPath × List Nat)
  | some (.ok (.ret r)) => r.written
  | _ => []

/-- The notifications a `build` run emitted (none unless it ran to
completion). -/
def buildEvents : Option (Except GatherError (PanicOr BuildResult)) → List LogEvent
  | some (.ok (.ret r)) => r.events
  | _ => []

/-- A finite manifest tree, used to state the discovery properties: a
directory whose manifest is unreadable (`bad false`) or malformed
(`bad true`), or a directory with a well-formed manifest declaring
shaders and named subtrees. -/
inductive MTree : Type where
  | bad (malformed : Bool)
  | node (shaders : List (String × Shader)) (children : List (String × MTree))

mutual

/-- Total number of manifest files in a tree (the fuel the discovery
loop needs to visit it). -/
def MTree.nodes : MTree → Nat
  | .bad _ => 1
  | .node _ ch => 1 + forestNodes ch

/-- Sum of `MTree.nodes` over a forest. -/
def forestNodes : List (String × MTree) → Nat
  | [] => 0
  | (_, t) :: r => t.nodes + forestNodes r

end

mutual

/-- Total number of shader declarations across all manifests of a tree
(the `N` of the discovery property). -/
def MTree.count : MTree → Nat
  | .bad _ => 0
  | .node sh ch => sh.length + forestCount ch

/-- Sum of `MTree.count` over a forest. -/
def forestCount : List (String × MTree) → Nat
  | [] => 0
  | (_, t) :: r => t.count + forestCount r

end

mutual

/-- Whether some manifest in the tree is unreadable or malformed. -/
def MTree.hasBad : MTree → Bool
  | .bad _ => true
  | .node _ ch => forestHasBad ch

/-- Whether some manifest in the forest is unreadable or malformed. -/
def forestHasBad : List (String × MTree) → Bool
  | [] => false
  | (_, t) :: r => t.hasBad || forestHasBad r

end

mutual

/-- The worklist entries a tree rooted at directory `dir` declares: for
each manifest, one `mkShader` entry per declaration, so every entry's
path is `dir` joined with its ancestor subdirectory names in
root-to-leaf order followed by its declared relative path. -/
def MTree.entries (dir : FsPath) : MTree → List ShaderToCompile
  | .bad _ => []
  | .node sh ch => sh.map (mkShader dir) ++ forestEntries dir ch

/-- Concatenation of `MTree.entries` over a forest of named subtrees. -/
def forestEntries (dir : FsPath) : List (String × MTree) → List ShaderToCompile
  | [] => []
  | (n, t) :: r => MTree.entries (childDir dir n) t ++ forestEntries dir r

end

mutual

/-- The tree `t` describes exactly what discovery observes below
directory `dir` in manifest filesystem `fs`: a `bad` leaf matches an
unreadable or malformed manifest file, and a `node` matches a manifest
declaring precisely the forest's names as subdirectories and the node's
shaders, with every named subtree describing its subdirectory. -/
def RepT (fs : ManifestFs) (dir : FsPath) : MTree → Prop
  | .bad false => readManifest fs (manifestPath dir) = none
  | .bad true => readManifest fs (manifestPath dir) = some .malformedFile
  | .node sh ch =>
    readManifest fs (manifestPath dir) = some (.manifestOk ⟨ch.map Prod.fst, sh⟩) ∧
      RepForest fs dir ch

/-- Every named subtree of the forest describes its subdirectory. -/
def RepForest (fs : ManifestFs) (dir : FsPath) : List (String × MTree) → Prop
  | [] => True
  | (n, t) :: r => RepT fs (childDir dir n) t ∧ RepForest fs dir r

end

/-- The (directory, subtree) pairs a node's forest pushes onto the
discovery work stack, in declaration order. -/
def childStack (dir : FsPath) : List (String × MTree) → List (FsPath × MTree)
  | [] => []
  | (n, t) :: r => (childDir dir n, t) :: childStack dir r

/-- Entries contributed by an annotated work stack. -/
def stackEntries : List (FsPath × MTree) → List ShaderToCompile
  | [] => []
  | pr :: r => MTree.entries pr.1 pr.2 ++ stackEntries r

/-- Manifest count of an annotated work stack. -/
def stackNodes : List (FsPath × MTree) → Nat
  | [] => 0
  | pr :: r => pr.2.nodes + stackNodes r

theorem MTree.nodes_pos (t : MTree) : 1 ≤ t.nodes := by
  cases t with
  | bad b => simp [MTree.nodes]
  | node sh ch => simp [MTree.nodes]

theorem stackNodes_append (a b : List (FsPath × MTree)) :
    stackNodes (a ++ b) = stackNodes a + stackNodes b := by
  induction a with
  | nil => simp [stackNodes]
  | cons x r ih => simp [stackNodes, ih]; omega

theorem stackNodes_reverse (l : List (FsPath × MTree)) :
    stackNodes l.reverse = stackNodes l := by
  induction l with
  | nil => rfl
  | cons x r ih =>
    rw [List.reverse_cons, stackNodes_append]
    simp [stackNodes, ih]; omega

theorem stackEntries_append (a b : List (FsPath × MTree)) :
    stackEntries (a ++ b) = stackEntries a ++ stackEntries b := by
  induction a with
  | nil => simp [stackEntries]
  | cons x r ih => simp [stackEntries, ih]

theorem stackEntries_reverse_perm (l : List (FsPath × MTree)) :
    (stackEntries l.reverse).Perm (stackEntries l) := by
  induction l with
  | nil => exact .refl _
  | cons x r ih =>
    rw [List.reverse_cons, stackEntries_append]
    refine (ih.append_right _).trans ?_
    simp only [stackEntries, List.append_nil]
    exact List.perm_append_comm

theorem childStack_map_fst (dir : FsPath) (ch : List (String × MTree)) :
    (childStack dir ch).map Prod.fst = (ch.map Prod.fst).map (childDir dir) := by
  induction ch with
  | nil => rfl
  | cons c r ih => cases c; simp [childStack, ih]

theorem childStack_entries (dir : FsPath) (ch : List (String × MTree)) :
    stackEntries (childStack dir ch) = forestEntries dir ch := by
  induction ch with
  | nil => rfl
  | cons c r ih => cases c; simp [childStack, stackEntries, forestEntries, ih]

theorem childStack_nodes (dir : FsPath) (ch : List (String × MTree)) :
    stackNodes (childStack dir ch) = forestNodes ch := by
  induction ch with
  | nil => rfl
  | cons c r ih => cases c; simp [childStack, stackNodes, forestNodes, ih]

theorem childStack_rep (fs : ManifestFs) (dir : FsPath) (ch : List (String × MTree))
    (h : RepForest fs dir ch) : ∀ pr ∈ childStack dir ch, RepT fs pr.1 pr.2 := by
  induction ch with
  | nil => intro pr hpr; simp [childStack] at hpr
  | cons c r ih =>
    cases c with
    | mk n t =>
      simp only [RepForest] at h
      intro pr hpr
      simp only [childStack, List.mem_cons] at hpr
      rcases hpr with h1 | h1
      · subst h1; exact h.1
      · exact ih h.2 pr h1

theorem childStack_good (dir : FsPath) (ch : List (String × MTree))
    (h : forestHasBad ch = false) : ∀ pr ∈ childStack dir ch, pr.2.hasBad = false := by
  induction ch with
  | nil => intro pr hpr; simp [childStack] at hpr
  | cons c r ih =>
    cases c with
    | mk n t =>
      simp only [forestHasBad, Bool.or_eq_false_iff] at h
      intro pr hpr
      simp only [childStack, List.mem_cons] at hpr
      rcases hpr with h1 | h1
      · subst h1; exact h.1
      · exact ih h.2 pr h1

theorem forestHasBad_mem (dir : FsPath) (ch : List (String × MTree))
    (h : forestHasBad ch = true) : ∃ pr ∈ childStack dir ch, pr.2.hasBad = true := by
  induction ch with
  | nil => simp [forestHasBad] at h
  | cons c r ih =>
    cases c with
    | mk n t =>
      simp only [forestHasBad, Bool.or_eq_true] at h
      rcases h with h1 | h1
      · exact ⟨(childDir dir n, t), by simp [childStack], h1⟩
      · obtain ⟨pr, hm, hb⟩ := ih h1
        exact ⟨pr, by simp [childStack, hm], hb⟩

mutual

theorem MTree.entries_length (dir : FsPath) : (t : MTree) →
    (MTree.entries dir t).length = t.count
  | .bad b => by simp [MTree.entries, MTree.count]
  | .node sh ch => by
    simp [MTree.entries, MTree.count, forestEntries_length dir ch]

theorem forestEntries_length (dir : FsPath) : (ch : List (String × MTree)) →
    (forestEntries dir ch).length = forestCount ch
  | [] => rfl
  | (n, t) :: r => by
    simp [forestEntries, forestCount, MTree.entries_length (childDir dir n) t,
      forestEntries_length dir r]

end

theorem gatherLoop_node (fs : ManifestFs) (fuel : Nat) (dir : FsPath) (rest : List FsPath)
    (acc : List ShaderToCompile) (m : Manifest)
    (h : readManifest fs (manifestPath dir) = some (.manifestOk m)) :
    gatherLoop fs (fuel + 1) (dir :: rest) acc =
      gatherLoop fs fuel ((m.subdirectories.map (childDir dir)).reverse ++ rest)
        (acc ++ m.shaders.map (mkShader dir)) := by
  simp only [gatherLoop, h]

theorem gatherLoop_unreadable (fs : ManifestFs) (fuel : Nat) (dir : FsPath)
    (rest : List FsPath) (acc : List ShaderToCompile)
    (h : readManifest fs (manifestPath dir) = none) :
    gatherLoop fs (fuel + 1) (dir :: rest) acc =
      some (.error (.readFailed (manifestPath dir))) := by
  simp only [gatherLoop, h]

theorem gatherLoop_malformed (fs : ManifestFs) (fuel : Nat) (dir : FsPath)
    (rest : List FsPath) (acc : List ShaderToCompile)
    (h : readManifest fs (manifestPath dir) = some .malformedFile) :
    gatherLoop fs (fuel + 1) (dir :: rest) acc =
      some (.error (.parseFailed (manifestPath dir))) := by
  simp only [gatherLoop, h]

theorem gatherLoop_ok (fs : ManifestFs) (fuel : Nat) :
    ∀ (st : List (FsPath × MTree)) (acc : List ShaderToCompile),
      (∀ pr ∈ st, RepT fs pr.1 pr.2) → (∀ pr ∈ st, pr.2.hasBad = false) →
      stackNodes st ≤ fuel →
      ∃ l, gatherLoop fs fuel (st.map Prod.fst) acc = some (.ok l) ∧
        l.Perm (acc ++ stackEntries st) := by
  induction fuel with
  | zero =>
    intro st acc hrep hgood hn
    match st with
    | [] => exact ⟨acc, rfl, by simp [stackEntries]⟩
    | (dir, t) :: rest =>
      exfalso
      have h1 := MTree.nodes_pos t
      simp [stackNodes] at hn
      omega
  | succ fuel ih =>
    intro st acc hrep hgood hn
    match st with
    | [] => exact ⟨acc, rfl, by simp [stackEntries]⟩
    | (dir, t) :: rest =>
      cases t with
      | bad b =>
        have hb := hgood (dir, .bad b) (by simp)
        simp [MTree.hasBad] at hb
      | node sh ch =>
        have h0 := hrep (dir, .node sh ch) (by simp)
        simp only [RepT] at h0
        obtain ⟨hread, hforest⟩ := h0
        have hgood0 := hgood (dir, .node sh ch) (by simp)
        simp only [MTree.hasBad] at hgood0
        have hrep' : ∀ pr ∈ (childStack dir ch).reverse ++ rest, RepT fs pr.1 pr.2 := by
          intro pr hpr
          rcases List.mem_append.mp hpr with h1 | h1
          · exact childStack_rep fs dir ch hforest pr (List.mem_reverse.mp h1)
          · exact hrep pr (List.mem_cons_of_mem _ h1)
        have hgood' : ∀ pr ∈ (childStack dir ch).reverse ++ rest, pr.2.hasBad = false := by
          intro pr hpr
          rcases List.mem_append.mp hpr with h1 | h1
          · exact childStack_good dir ch hgood0 pr (List.mem_reverse.mp h1)
          · exact hgood pr (List.mem_cons_of_mem _ h1)
        have hn' : stackNodes ((childStack dir ch).reverse ++ rest) ≤ fuel := by
          rw [stackNodes_append, stackNodes_reverse, childStack_nodes]
          simp only [stackNodes, MTree.nodes] at hn ⊢
          omega
        obtain ⟨l, heq, hperm⟩ := ih ((childStack dir ch).reverse ++ rest)
          (acc ++ sh.map (mkShader dir)) hrep' hgood' hn'
        refine ⟨l, ?_, ?_⟩
        · rw [List.map_cons, gatherLoop_node fs fuel dir _ acc ⟨ch.map Prod.fst, sh⟩ hread]
          rw [← heq]
          congr 1
          simp [List.map_append, List.map_reverse, childStack_map_fst]
        · refine hperm.trans ?_
          rw [stackEntries_append]
          have h2 : (stackEntries ((childStack dir ch).reverse)).Perm (forestEntries dir ch) := by
            rw [← childStack_entries dir ch]
            exact stackEntries_reverse_perm _
          simp only [stackEntries, MTree.entries, List.append_assoc]
          exact (((h2.append_right _).append_left _).append_left _)

theorem gatherLoop_err (fs : ManifestFs) (fuel : Nat) :
    ∀ (st : List (FsPath × MTree)) (acc : List ShaderToCompile),
      (∀ pr ∈ st, RepT fs pr.1 pr.2) →
      (∃ pr ∈ st, pr.2.hasBad = true) → stackNodes st ≤ fuel →
      ∃ e, gatherLoop fs fuel (st.map Prod.fst) acc = some (.error e) ∧
        ∃ p, (e = .readFailed p ∧ readManifest fs p = none) ∨
          (e = .parseFailed p ∧ readManifest fs p = some .malformedFile) := by
  induction fuel with
  | zero =>
    intro st acc hrep hbad hn
    match st with
    | [] => simp at hbad
    | (dir, t) :: rest =>
      exfalso
      have h1 := MTree.nodes_pos t
      simp [stackNodes] at hn
      omega
  | succ fuel ih =>
    intro st acc hrep hbad hn
    match st with
    | [] => simp at hbad
    | (dir, t) :: rest =>
      cases t with
      | bad b =>
        have h0 := hrep (dir, .bad b) (by simp)
        cases b with
        | false =>
          simp only [RepT] at h0
          refine ⟨.readFailed (manifestPath dir), ?_, manifestPath dir, ?_⟩
          · rw [List.map_cons]
            exact gatherLoop_unreadable fs fuel dir _ acc h0
          · exact Or.inl ⟨rfl, h0⟩
        | true =>
          simp only [RepT] at h0
          refine ⟨.parseFailed (manifestPath dir), ?_, manifestPath dir, ?_⟩
          · rw [List.map_cons]
            exact gatherLoop_malformed fs fuel dir _ acc h0
          · exact Or.inr ⟨rfl, h0⟩
      | node sh ch =>
        have h0 := hrep (dir, .node sh ch) (by simp)
        simp only [RepT] at h0
        obtain ⟨hread, hforest⟩ := h0
        have hrep' : ∀ pr ∈ (childStack dir ch).reverse ++ rest, RepT fs pr.1 pr.2 := by
          intro pr hpr
          rcases List.mem_append.mp hpr with h1 | h1
          · exact childStack_rep fs dir ch hforest pr (List.mem_reverse.mp h1)
          · exact hrep pr (List.mem_cons_of_mem _ h1)
        have hbad' : ∃ pr ∈ (childStack dir ch).reverse ++ rest, pr.2.hasBad = true := by
          obtain ⟨pr, hm, hb⟩ := hbad
          rcases List.mem_cons.mp hm with h1 | h1
          · subst h1
            simp only [MTree.hasBad] at hb
            obtain ⟨pr', hm', hb'⟩ := forestHasBad_mem dir ch hb
            exact ⟨pr', List.mem_append.mpr (Or.inl (List.mem_reverse.mpr hm')), hb'⟩
          · exact ⟨pr, List.mem_append.mpr (Or.inr h1), hb⟩
        have hn' : stackNodes ((childStack dir ch).reverse ++ rest) ≤ fuel := by
          rw [stackNodes_append, stackNodes_reverse, childStack_nodes]
          simp only [stackNodes, MTree.nodes] at hn ⊢
          omega
        obtain ⟨e, heq, hname⟩ := ih ((childStack dir ch).reverse ++ rest)
          (acc ++ sh.map (mkShader dir)) hrep' hbad' hn'
        refine ⟨e, ?_, hname⟩
        rw [List.map_cons, gatherLoop_node fs fuel dir _ acc ⟨ch.map Prod.fst, sh⟩ hread]
        rw [← heq]
        congr 1
        simp [List.map_append, List.map_reverse, childStack_map_fst]

theorem compile_fn_nagaWgsl_target (sk : ShaderSourceKind) (t : Target)
    (h : compile_fn sk t = some .nagaWgsl) : t ≠ Target.Wgsl := by
  cases sk <;> cases t <;> simp_all [compile_fn]

theorem runCompileFn_ret (tc : Toolchain M) (cf : CompileFnName) (source : List Nat)
    (kind : ShaderKind) (target : Target) (h : target = Target.Wgsl → cf ≠ .nagaWgsl) :
    ∃ r, runCompileFn tc cf source kind target = .ret r := by
  cases cf with
  | identity => exact ⟨_, rfl⟩
  | shadercGlsl => exact ⟨_, rfl⟩
  | nagaWgsl =>
    simp only [runCompileFn, compile_naga_wgsl]
    cases hp : tc.parseWgsl source with
    | error e => exact ⟨_, rfl⟩
    | ok m =>
      cases target with
      | Wgsl => exact absurd rfl (h rfl)
      | Spirv => exact ⟨_, rfl⟩
      | Glsl => exact ⟨_, rfl⟩

theorem compile_source_ret (tc : Toolchain M) (source : List Nat) (shader : ShaderToCompile)
    (options : Options) : ∃ r, compile_source tc source shader options = .ret r := by
  cases hg : ShaderSourceKind.guess shader.path with
  | none => exact ⟨_, by simp only [compile_source, hg]; rfl⟩
  | some sk =>
    cases hc : compile_fn sk options.target with
    | none => exact ⟨_, by simp only [compile_source, hg, hc]; rfl⟩
    | some cf =>
      have hw : options.target = Target.Wgsl → cf ≠ .nagaWgsl := by
        intro ht hcf
        exact compile_fn_nagaWgsl_target sk options.target (hcf ▸ hc) ht
      cases hrc : runCompileFn tc cf source shader.kind options.target with
      | panicked m =>
        exfalso
        obtain ⟨r, hr⟩ := runCompileFn_ret tc cf source shader.kind options.target hw
        rw [hrc] at hr
        exact PanicOr.noConfusion hr
      | ret r =>
        cases r with
        | error e => exact ⟨_, by simp only [compile_source, hg, hc, hrc]; rfl⟩
        | ok bytes => exact ⟨_, by simp only [compile_source, hg, hc, hrc]; rfl⟩

theorem compile_ret (tc : Toolchain M) (files : FileFs) (shader : ShaderToCompile)
    (options : Options) : ∃ r, compile tc files shader options = .ret r := by
  cases hl : lookupFile files (options.source_dir.join shader.path) with
  | none => exact ⟨_, by simp only [compile, hl]; rfl⟩
  | some source =>
    obtain ⟨r, hr⟩ := compile_source_ret tc source shader options
    cases r with
    | error e => exact ⟨_, by simp only [compile, hl, hr]; rfl⟩
    | ok output =>
      cases hd : diffPaths (options.source_dir.join shader.path) options.source_dir with
      | none => exact ⟨_, by simp only [compile, hl, hr, hd]; rfl⟩
      | some base_path =>
        cases hw : tc.writeOk ((options.target_dir.join base_path).setExt
            options.target.extension) output with
        | true => exact ⟨_, by simp only [compile, hl, hr, hd, hw, if_true]; rfl⟩
        | false =>
          refine ⟨.error (.writeFailed ((options.target_dir.join base_path).setExt
            options.target.extension)), ?_⟩
          simp only [compile, hl, hr, hd, hw, Bool.false_eq_true, if_false]

theorem compile_ok_path (tc : Toolchain M) (files : FileFs) (shader : ShaderToCompile)
    (options : Options) (p : FsPath) (bytes : List Nat)
    (h : compile tc files shader options = .ret (.ok (p, bytes))) :
    ∃ source base_path,
      lookupFile files (options.source_dir.join shader.path) = some source ∧
      diffPaths (options.source_dir.join shader.path) options.source_dir = some base_path ∧
      p = (options.target_dir.join base_path).setExt options.target.extension := by
  cases hl : lookupFile files (options.source_dir.join shader.path) with
  | none =>
    simp only [compile, hl] at h
    exact absurd h (by simp)
  | some source =>
    obtain ⟨r, hr⟩ := compile_source_ret tc source shader options
    cases r with
    | error e =>
      simp only [compile, hl, hr] at h
      exact absurd h (by simp)
    | ok output =>
      cases hd : diffPaths (options.source_dir.join shader.path) options.source_dir with
      | none =>
        simp only [compile, hl, hr, hd] at h
        exact absurd h (by simp)
      | some base_path =>
        refine ⟨source, base_path, rfl, rfl, ?_⟩
        cases hw : tc.writeOk ((options.target_dir.join base_path).setExt
            options.target.extension) output with
        | true =>
          simp only [compile, hl, hr, hd, hw, if_true] at h
          simp only [PanicOr.ret.injEq, Except.ok.injEq, Prod.mk.injEq] at h
          exact h.1.symm
        | false =>
          simp only [compile, hl, hr, hd, hw, Bool.false_eq_true, if_false] at h
          exact absurd h (by simp)

theorem runShaders_spec (tc : Toolchain M) (files : FileFs) (options : Options) :
    ∀ shaders : List ShaderToCompile,
      ∃ evs ws ok, runShaders tc files options shaders = .ret (evs, ws, ok) ∧
        (ok = true ↔ ∀ s ∈ shaders, ∃ pw, compile tc files s options = .ret (.ok pw)) ∧
        (evs.filter LogEvent.isCompiling).length = shaders.length ∧
        ∀ e ∈ evs, e ≠ .completed := by
  intro shaders
  induction shaders with
  | nil => exact ⟨[], [], true, rfl, by simp, by simp, by simp⟩
  | cons s rest ih =>
    obtain ⟨evs, ws, ok, heq, hok, hcount, hnc⟩ := ih
    obtain ⟨r, hr⟩ := compile_ret tc files s options
    cases r with
    | ok pw =>
      refine ⟨.compiling s.name :: evs, pw :: ws, ok, ?_, ?_, ?_, ?_⟩
      · simp only [runShaders, hr, heq, PanicOr.map]
      · constructor
        · intro h s' hs'
          rcases List.mem_cons.mp hs' with h1 | h1
          · subst h1; exact ⟨pw, hr⟩
          · exact (hok.mp h) s' h1
        · intro h
          exact hok.mpr (fun s' hs' => h s' (List.mem_cons_of_mem _ hs'))
      · simp [LogEvent.isCompiling, hcount]
      · intro e he
        rcases List.mem_cons.mp he with h1 | h1
        · subst h1; simp
        · exact hnc e h1
    | error err =>
      refine ⟨.compiling s.name :: .compileError s.name err :: evs, ws, false, ?_, ?_, ?_, ?_⟩
      · simp only [runShaders, hr, heq, PanicOr.map]
      · constructor
        · intro h; exact absurd h (by simp)
        · intro h
          obtain ⟨pw, hpw⟩ := h s (by simp)
          rw [hr] at hpw
          simp at hpw
      · simp [LogEvent.isCompiling, hcount]
      · intro e he
        rcases List.mem_cons.mp he with h1 | h1
        · subst h1; simp
        · rcases List.mem_cons.mp h1 with h2 | h2
          · subst h2; simp
          · exact hnc e h2

theorem append_dot_ext_cancel (e s1 s2 : String) (h : s1 ++ "." ++ e = s2 ++ "." ++ e) :
    s1 = s2 := by
  have hd := congrArg String.data h
  rw [String.data_append, String.data_append, String.data_append, String.data_append] at hd
  exact String.ext (List.append_cancel_right (List.append_cancel_right hd))

theorem fileStem_eq_of_setExtName_eq (e : String) (he : e ≠ "") (f g : String)
    (h : setExtName f e = setExtName g e) : fileStem f = fileStem g := by
  simp only [setExtName, if_neg he] at h
  exact append_dot_ext_cancel e _ _ h

theorem setExtComps_length (e : String) : (cs : List String) →
    (setExtComps e cs).length = cs.length
  | [] => rfl
  | [f] => rfl
  | c :: d :: r => by simp [setExtComps, setExtComps_length e (d :: r)]

theorem stemComps_eq_of_setExtComps_eq (e : String) (he : e ≠ "") :
    (cs1 cs2 : List String) → setExtComps e cs1 = setExtComps e cs2 →
    stemComps cs1 = stemComps cs2
  | [], [], _ => rfl
  | [], [g], h => by simp [setExtComps] at h
  | [], c :: d :: r, h => by
    have hl := congrArg List.length h
    simp [setExtComps_length] at hl
  | [f], [], h => by simp [setExtComps] at h
  | [f], [g], h => by
    simp only [setExtComps, List.cons.injEq, and_true] at h
    simp [stemComps, fileStem_eq_of_setExtName_eq e he f g h]
  | [f], c :: d :: r, h => by
    have hl := congrArg List.length h
    simp [setExtComps_length, setExtComps] at hl
  | c :: d :: r, [], h => by
    have hl := congrArg List.length h
    simp [setExtComps_length] at hl
  | c :: d :: r, [g], h => by
    have hl := congrArg List.length h
    simp [setExtComps_length, setExtComps] at hl
  | c :: d :: r, c' :: d' :: r', h => by
    simp only [setExtComps, List.cons.injEq] at h
    obtain ⟨hc, ht⟩ := h
    have hrec := stemComps_eq_of_setExtComps_eq e he (d :: r) (d' :: r') ht
    simp [stemComps, hc, hrec]

theorem stemComps_ne_none : (cs : List String) → cs ≠ [] → ∃ pr, stemComps cs = some pr
  | [], h => absurd rfl h
  | [f], _ => ⟨([], fileStem f), rfl⟩
  | c :: d :: r, _ => by
    obtain ⟨pr, hpr⟩ := stemComps_ne_none (d :: r) (by simp)
    exact ⟨(c :: pr.1, pr.2), by simp [stemComps, hpr]⟩

theorem stemComps_append (td cs : List String) (h : cs ≠ []) :
    stemComps (td ++ cs) = (stemComps cs).map (fun pr => (td ++ pr.1, pr.2)) := by
  induction td with
  | nil =>
    obtain ⟨pr, hpr⟩ := stemComps_ne_none cs h
    simp [hpr]
  | cons a td ih =>
    obtain ⟨d, r, hodr⟩ : ∃ d r, td ++ cs = d :: r := by
      cases htd : td ++ cs with
      | nil =>
        rcases List.append_eq_nil.mp htd with ⟨_, h2⟩
        exact absurd h2 h
      | cons d r => exact ⟨d, r, rfl⟩
    have hstep : stemComps (a :: (td ++ cs)) =
        (stemComps (td ++ cs)).map (fun pr => (a :: pr.1, pr.2)) := by
      rw [hodr]
      simp [stemComps]
    rw [List.cons_append, hstep, ih]
    obtain ⟨pr, hpr⟩ := stemComps_ne_none cs h
    simp [hpr]

theorem target_extension_ne_empty (t : Target) : t.extension ≠ "" := by
  cases t <;> simp [Target.extension]

theorem setExt_join_inj (t : Target) (td r1 r2 : FsPath)
    (h1 : r1.absolute = false) (h2 : r2.absolute = false)
    (hs : r1.stems ≠ r2.stems) :
    (td.join r1).setExt t.extension ≠ (td.join r2).setExt t.extension := by
  intro heq
  apply hs
  have hext := target_extension_ne_empty t
  simp only [FsPath.join, h1, h2, Bool.false_eq_true, if_false, FsPath.setExt,
    FsPath.mk.injEq] at heq
  have hcomp := stemComps_eq_of_setExtComps_eq t.extension hext _ _ heq.2
  by_cases hr1 : r1.components = []
  · by_cases hr2 : r2.components = []
    · simp [FsPath.stems, hr1, hr2]
    · exfalso
      have hl := congrArg List.length heq.2
      rw [setExtComps_length, setExtComps_length] at hl
      rw [List.length_append, List.length_append, hr1] at hl
      simp at hl
      exact hr2 hl
  · by_cases hr2 : r2.components = []
    · exfalso
      have hl := congrArg List.length heq.2
      rw [setExtComps_length, setExtComps_length] at hl
      rw [List.length_append, List.length_append, hr2] at hl
      simp at hl
      exact hr1 hl
    · rw [stemComps_append td.components r1.components hr1,
        stemComps_append td.components r2.components hr2] at hcomp
      obtain ⟨pr1, hpr1⟩ := stemComps_ne_none r1.components hr1
      obtain ⟨pr2, hpr2⟩ := stemComps_ne_none r2.components hr2
      rw [hpr1, hpr2] at hcomp
      simp at hcomp
      obtain ⟨ha, hb⟩ := hcomp
      show stemComps r1.components = stemComps r2.components
      rw [hpr1, hpr2]
      exact congrArg some (Prod.ext ha hb)

deriving instance DecidableEq for Except

/-- A concrete toolchain over the trivial module type, used to witness
the universally quantified theorems at a concrete input. -/
def tc0 : Toolchain Unit :=
  ⟨fun _ => .ok (), fun _ => .ok [7], fun _ _ => .ok [8], fun _ _ => .ok [9],
    fun _ _ => true⟩

/-- A concrete absolute source root. -/
def root0 : FsPath := ⟨true, ["r"]⟩

/-- A one-manifest filesystem: the root manifest declares shader "a" at
"a.wgsl" and no subdirectories. -/
def mfs0 : ManifestFs :=
  [(⟨true, ["r", "shadermake.toml"]⟩, .manifestOk ⟨[], [("a", ⟨"a.wgsl", .Vertex⟩)]⟩)]

/-- The manifest tree describing `mfs0` below `root0`. -/
def t0 : MTree := .node [("a", ⟨"a.wgsl", .Vertex⟩)] []

/-- Build options targeting format A (wgsl) with target root "out". -/
def opts0 : Options := ⟨root0, ⟨true, ["out"]⟩, .Wgsl⟩

/-- Source files for `mfs0`'s worklist. -/
def files1 : FileFs := [(⟨true, ["r", "a.wgsl"]⟩, [5])]

/-- A worklist entry whose path has the "glsl" extension. -/
def shaderGlsl0 : ShaderToCompile := ⟨"g", ⟨false, ["g.glsl"]⟩, .Fragment⟩

/-- A worklist entry whose path has the "wgsl" extension. -/
def shaderWgsl0 : ShaderToCompile := ⟨"w", ⟨false, ["w.wgsl"]⟩, .Vertex⟩

/-- A worklist entry with an unrecognized (uppercase) extension. -/
def shaderBad0 : ShaderToCompile := ⟨"b", ⟨false, ["B.WGSL"]⟩, .Vertex⟩

/-- Source files covering the shaders above under root `root0`. -/
def files0 : FileFs :=
  [(⟨true, ["r", "g.glsl"]⟩, [1, 2, 3]), (⟨true, ["r", "w.wgsl"]⟩, [5, 6]),
    (⟨true, ["r", "B.WGSL"]⟩, [4])]

/-- C1: the dispatch lookup returns exactly the matrix of the spec:
wgsl source to Spirv or Glsl via the naga (intermediate-representation)
pipeline, wgsl to wgsl via identity copy, glsl source to Spirv via
shaderc (native-compiler) delegation, glsl to glsl via identity copy, and
for the one absent pair (glsl source, wgsl target) no transformation, so
compiling such a shader fails with the dispatch error (and, the result
being an error, `compile` writes no output file). -/
theorem c1_dispatch_matrix (M : Type) (tc : Toolchain M) (files : FileFs)
    (shader : ShaderToCompile) (options : Options) (src : List Nat) :
    compile_fn .Wgsl .Spirv = some .nagaWgsl ∧
    compile_fn .Wgsl .Glsl = some .nagaWgsl ∧
    compile_fn .Wgsl .Wgsl = some .identity ∧
    compile_fn .Glsl .Spirv = some .shadercGlsl ∧
    compile_fn .Glsl .Glsl = some .identity ∧
    compile_fn .Glsl .Wgsl = none ∧
    (ShaderSourceKind.guess shader.path = some .Glsl → options.target = .Wgsl →
      lookupFile files (options.source_dir.join shader.path) = some src →
      compile tc files shader options = .ret (.error .noCompilePath)) := by
  refine ⟨rfl, rfl, rfl, rfl, rfl, rfl, ?_⟩
  intro hg ht hl
  have hsrc : compile_source tc src shader options = .ret (.error .noCompilePath) := by
    simp only [compile_source, hg, ht, compile_fn]
  simp only [compile, hl, hsrc]

/-- C1 witness: a glsl-extension shader compiled to the wgsl target under
a readable source file yields exactly the dispatch error. -/
theorem c1_dispatch_matrix_witness :
    compile tc0 files0 shaderGlsl0 opts0 = .ret (.error .noCompilePath) :=
  (c1_dispatch_matrix Unit tc0 files0 shaderGlsl0 opts0 [1, 2, 3]).2.2.2.2.2.2
    (by decide) rfl (by decide)

/-- C5: the identity transformation returns its input bytes unchanged for
every stage and target, and consequently `compile_source` on a wgsl
source with the wgsl target, or a glsl source with the glsl target,
succeeds with output bytes equal to the source bytes. -/
theorem c5_identity_fixed_point (M : Type) (tc : Toolchain M) (source : List Nat)
    (kind : ShaderKind) (target : Target) (shader : ShaderToCompile) (options : Options) :
    compile_identity source kind target = .ret (.ok source) ∧
    (ShaderSourceKind.guess shader.path = some .Wgsl → options.target = .Wgsl →
      compile_source tc source shader options = .ret (.ok source)) ∧
    (ShaderSourceKind.guess shader.path = some .Glsl → options.target = .Glsl →
      compile_source tc source shader options = .ret (.ok source)) := by
  refine ⟨rfl, ?_, ?_⟩
  · intro hg ht
    simp only [compile_source, hg, ht, compile_fn, runCompileFn, compile_identity]
  · intro hg ht
    simp only [compile_source, hg, ht, compile_fn, runCompileFn, compile_identity]

/-- C5 witness: concrete identity compilations returning the input bytes. -/
theorem c5_identity_fixed_point_witness :
    compile_source tc0 [5, 6] shaderWgsl0 opts0 = .ret (.ok [5, 6]) :=
  (c5_identity_fixed_point Unit tc0 [5, 6] .Vertex .Spirv shaderWgsl0 opts0).2.1
    (by decide) rfl

/-- C8 counterexample: the claim that the dispatch matrix never selects
the intermediate-representation transformation for output format B
(glsl) is false: for a wgsl source with the glsl target it selects
exactly that transformation. -/
theorem c8_counterexample :
    ¬ (∀ (sk : ShaderSourceKind) (t : Target),
      compile_fn sk t = some .nagaWgsl → t ≠ Target.Glsl) :=
  fun h => h .Wgsl .Glsl rfl rfl

/-- C8 amended: whenever the dispatch matrix selects the
intermediate-representation transformation, the requested target is not
format A (wgsl) — the target whose arm in `compile_naga` is
unreachable. -/
theorem c8_ir_never_wgsl_target (sk : ShaderSourceKind) (t : Target)
    (h : compile_fn sk t = some .nagaWgsl) : t ≠ Target.Wgsl :=
  compile_fn_nagaWgsl_target sk t h

/-- C8 witness: the amended statement at the concrete pair
(wgsl source, Spirv target). -/
theorem c8_ir_never_wgsl_target_witness :
    compile_fn .Wgsl .Spirv = some .nagaWgsl ∧ Target.Spirv ≠ Target.Wgsl :=
  ⟨rfl, c8_ir_never_wgsl_target .Wgsl .Spirv rfl⟩

/-- C10 (implicit): the `unreachable!` arm of `compile_naga` (its wgsl
target) never executes on any call path through `compile_source`: the
dispatch maps (wgsl source, wgsl target) to the identity transformation,
the naga transformation is only selected for non-wgsl targets, and
`compile_source` always returns (never panics). -/
theorem c10_no_panic (M : Type) (tc : Toolchain M) (source : List Nat)
    (shader : ShaderToCompile) (options : Options) (sk : ShaderSourceKind) (t : Target) :
    (∃ r, compile_source tc source shader options = PanicOr.ret r) ∧
    compile_fn .Wgsl .Wgsl = some .identity ∧
    (compile_fn sk t = some .nagaWgsl → t ≠ Target.Wgsl) := by
  refine ⟨compile_source_ret tc source shader options, rfl, ?_⟩
  exact compile_fn_nagaWgsl_target sk t

/-- C10 witness: the statement at a concrete input, with the dispatch
hypothesis discharged at (wgsl source, Spirv target). -/
theorem c10_no_panic_witness :
    (∃ r, compile_source tc0 [5, 6] shaderWgsl0 opts0 = PanicOr.ret r) ∧
    Target.Spirv ≠ Target.Wgsl :=
  ⟨(c10_no_panic Unit tc0 [5, 6] shaderWgsl0 opts0 .Wgsl .Spirv).1,
    (c10_no_panic Unit tc0 [5, 6] shaderWgsl0 opts0 .Wgsl .Spirv).2.2 rfl⟩

/-- The single worklist entry of `mfs0`, as `gather_shaders` builds it:
its path is the source root joined with the declared relative path. -/
def shaderA0 : ShaderToCompile := ⟨"a", ⟨true, ["r", "a.wgsl"]⟩, .Vertex⟩

/-- The worklist discovered from `mfs0`. -/
def shaders0 : List ShaderToCompile := [shaderA0]

/-- A malformed-manifest filesystem at the root. -/
def mfsBad : ManifestFs := [(⟨true, ["r", "shadermake.toml"]⟩, .malformedFile)]

/-- The manifest tree describing `mfsBad` below `root0`. -/
def tBad : MTree := .bad true

/-- C2 counterexample: on a one-shader manifest under the absolute source
root `r`, discovery produces the entry whose path is the root-joined path
`r/a.wgsl`, which is not the bare concatenation of ancestor subdirectory
names and the declared relative path (`a.wgsl` relative, no ancestors)
that the claim asserts. -/
theorem c2_counterexample :
    gather_shaders mfs0 root0 1 =
      some (.ok [⟨"a", ⟨true, ["r", "a.wgsl"]⟩, ShaderKind.Vertex⟩]) ∧
    (⟨true, ["r", "a.wgsl"]⟩ : FsPath) ≠ ⟨false, ["a.wgsl"]⟩ :=
  ⟨by decide, by decide⟩

/-- C2 amended: for every valid (acyclic, fully readable, well-formed)
manifest tree with N total shader declarations, `gather_shaders` succeeds
and produces exactly N entries, a permutation of the tree's entry list —
in which each entry's path is the source root joined with the
concatenation of its ancestor subdirectory names in root-to-leaf order
followed by its own declared relative path (hence expressible relative to
the source root, though not equal to the bare concatenation). -/
theorem c2_discovery_entries (fs : ManifestFs) (root : FsPath) (t : MTree) (fuel : Nat)
    (hrep : RepT fs root t) (hgood : t.hasBad = false) (hfuel : t.nodes ≤ fuel) :
    ∃ l, gather_shaders fs root fuel = some (.ok l) ∧
      l.length = t.count ∧ l.Perm (MTree.entries root t) := by
  have h1 : ∀ pr ∈ [(root, t)], RepT fs pr.1 pr.2 := by
    intro pr hpr
    rw [List.mem_singleton] at hpr
    subst hpr
    exact hrep
  have h2 : ∀ pr ∈ [(root, t)], pr.2.hasBad = false := by
    intro pr hpr
    rw [List.mem_singleton] at hpr
    subst hpr
    exact hgood
  have h3 : stackNodes [(root, t)] ≤ fuel := by
    simp [stackNodes]
    omega
  obtain ⟨l, heq, hperm⟩ := gatherLoop_ok fs fuel [(root, t)] [] h1 h2 h3
  have hperm' : l.Perm (MTree.entries root t) := by
    simpa [stackEntries] using hperm
  exact ⟨l, heq, by rw [hperm'.length_eq, MTree.entries_length], hperm'⟩

/-- C2 witness: the amended statement at the concrete one-shader tree. -/
theorem c2_discovery_entries_witness :
    ∃ l, gather_shaders mfs0 root0 1 = some (.ok l) ∧
      l.length = t0.count ∧ l.Perm (MTree.entries root0 t0) :=
  c2_discovery_entries mfs0 root0 t0 1
    (by simp only [t0, RepT, RepForest, and_true]; decide)
    (by simp [t0, MTree.hasBad, forestHasBad])
    (by simp [t0, MTree.nodes, forestNodes])

/-- C3: after a successful discovery, the build completes with exit code
0 exactly when every discovered shader compiled and wrote successfully
and exit code 1 exactly when at least one failed; and every worklist item
is attempted — the event list carries one compilation-starting
notification per worklist entry, regardless of failures. -/
theorem c3_exit_code_aggregate (M : Type) (tc : Toolchain M) (mfs : ManifestFs)
    (files : FileFs) (options : Options) (fuel : Nat) (shaders : List ShaderToCompile)
    (hg : gather_shaders mfs options.source_dir fuel = some (.ok shaders)) :
    ∃ res : BuildResult, build tc mfs files options fuel = some (.ok (.ret res)) ∧
      (res.exitCode = 0 ↔ ∀ s ∈ shaders, ∃ pw, compile tc files s options = .ret (.ok pw)) ∧
      (res.exitCode = 1 ↔ ∃ s ∈ shaders, ∀ pw, compile tc files s options ≠ .ret (.ok pw)) ∧
      (res.events.filter LogEvent.isCompiling).length = shaders.length := by
  obtain ⟨evs, ws, ok, heq, hok, hcount, hnc⟩ := runShaders_spec tc files options shaders
  have e0 : ((if ok then (0 : Nat) else 1) = 0) ↔ ok = true := by cases ok <;> simp
  have e1 : ((if ok then (0 : Nat) else 1) = 1) ↔ ok = false := by cases ok <;> simp
  have hnot : ok = false ↔
      ¬ (∀ s ∈ shaders, ∃ pw, compile tc files s options = .ret (.ok pw)) := by
    rw [← hok]
    cases ok <;> simp
  have hex : (¬ ∀ s ∈ shaders, ∃ pw, compile tc files s options = .ret (.ok pw)) ↔
      (∃ s ∈ shaders, ∀ pw, compile tc files s options ≠ .ret (.ok pw)) := by
    push_neg
    rfl
  refine ⟨⟨.shadersGathered shaders.length :: evs, ws, if ok then 0 else 1⟩, ?_, ?_, ?_, ?_⟩
  · simp only [build, hg, heq, PanicOr.map]
  · exact e0.trans hok
  · exact e1.trans (hnot.trans hex)
  · simpa [LogEvent.isCompiling] using hcount

/-- C3 witness: the statement at the concrete one-shader build. -/
theorem c3_exit_code_aggregate_witness :
    ∃ res : BuildResult, build tc0 mfs0 files1 opts0 1 = some (.ok (.ret res)) ∧
      (res.exitCode = 0 ↔ ∀ s ∈ shaders0, ∃ pw, compile tc0 files1 s opts0 = .ret (.ok pw)) ∧
      (res.exitCode = 1 ↔ ∃ s ∈ shaders0, ∀ pw, compile tc0 files1 s opts0 ≠ .ret (.ok pw)) ∧
      (res.events.filter LogEvent.isCompiling).length = shaders0.length :=
  c3_exit_code_aggregate Unit tc0 mfs0 files1 opts0 1 shaders0 (by decide)

/-- C4: over a manifest tree containing an unreadable or malformed
manifest, discovery returns an error naming an offending manifest path
(one whose read fails or whose parse fails), the build propagates that
same error before any compilation starts, and the failed build emits no
notification and writes no output file. -/
theorem c4_discovery_atomic (M : Type) (tc : Toolchain M) (fs : ManifestFs)
    (files : FileFs) (options : Options) (fuel : Nat) (t : MTree)
    (hrep : RepT fs options.source_dir t) (hbad : t.hasBad = true)
    (hfuel : t.nodes ≤ fuel) :
    ∃ e, gather_shaders fs options.source_dir fuel = some (.error e) ∧
      (∃ p, (e = .readFailed p ∧ readManifest fs p = none) ∨
        (e = .parseFailed p ∧ readManifest fs p = some .malformedFile)) ∧
      build tc fs files options fuel = some (.error e) ∧
      buildEvents (build tc fs files options fuel) = [] ∧
      buildWrites (build tc fs files options fuel) = [] := by
  have h1 : ∀ pr ∈ [(options.source_dir, t)], RepT fs pr.1 pr.2 := by
    intro pr hpr
    rw [List.mem_singleton] at hpr
    subst hpr
    exact hrep
  have h2 : ∃ pr ∈ [(options.source_dir, t)], pr.2.hasBad = true :=
    ⟨(options.source_dir, t), by simp, hbad⟩
  have h3 : stackNodes [(options.source_dir, t)] ≤ fuel := by
    simp [stackNodes]
    omega
  obtain ⟨e, heq, hname⟩ := gatherLoop_err fs fuel [(options.source_dir, t)] [] h1 h2 h3
  have hg : gather_shaders fs options.source_dir fuel = some (.error e) := heq
  have hb : build tc fs files options fuel = some (.error e) := by
    simp only [build, hg]
  refine ⟨e, hg, hname, hb, ?_, ?_⟩
  · rw [hb]
    rfl
  · rw [hb]
    rfl

/-- C4 witness: the statement at the concrete malformed-root tree. -/
theorem c4_discovery_atomic_witness :
    ∃ e, gather_shaders mfsBad opts0.source_dir 1 = some (.error e) ∧
      (∃ p, (e = .readFailed p ∧ readManifest mfsBad p = none) ∨
        (e = .parseFailed p ∧ readManifest mfsBad p = some .malformedFile)) ∧
      build tc0 mfsBad files1 opts0 1 = some (.error e) ∧
      buildEvents (build tc0 mfsBad files1 opts0 1) = [] ∧
      buildWrites (build tc0 mfsBad files1 opts0 1) = [] :=
  c4_discovery_atomic Unit tc0 mfsBad files1 opts0 1 tBad
    (by simp only [tBad, RepT]; decide)
    (by simp [tBad, MTree.hasBad])
    (by simp [tBad, MTree.nodes])

/-- C6: on every successful compilation the written path is derived by
taking the source path relative to the source root, joining it onto the
target root and replacing its extension with the target's canonical one;
and for a fixed target this derivation is injective over relative source
paths with distinct stems. -/
theorem c6_output_path_derivation (M : Type) (tc : Toolchain M) (files : FileFs)
    (shader : ShaderToCompile) (options : Options) (p : FsPath) (bytes : List Nat)
    (t : Target) (td r1 r2 : FsPath) :
    (compile tc files shader options = .ret (.ok (p, bytes)) →
      ∃ rel, diffPaths (options.source_dir.join shader.path) options.source_dir = some rel ∧
        p = (options.target_dir.join rel).setExt options.target.extension) ∧
    (r1.absolute = false → r2.absolute = false → r1.stems ≠ r2.stems →
      (td.join r1).setExt t.extension ≠ (td.join r2).setExt t.extension) := by
  constructor
  · intro h
    obtain ⟨source, base_path, _, hd, hp⟩ := compile_ok_path tc files shader options p bytes h
    exact ⟨base_path, hd, hp⟩
  · intro h1 h2 hs
    exact setExt_join_inj t td r1 r2 h1 h2 hs

/-- C6 witness: the derivation at a concrete successful compile, and
distinctness of the outputs of two relative paths with distinct stems. -/
theorem c6_output_path_derivation_witness :
    (∃ rel, diffPaths (opts0.source_dir.join shaderA0.path) opts0.source_dir = some rel ∧
      (⟨true, ["out", "a.wgsl"]⟩ : FsPath) =
        (opts0.target_dir.join rel).setExt opts0.target.extension) ∧
    (FsPath.join ⟨true, ["out"]⟩ ⟨false, ["x.wgsl"]⟩).setExt Target.Spirv.extension ≠
      (FsPath.join ⟨true, ["out"]⟩ ⟨false, ["y.wgsl"]⟩).setExt Target.Spirv.extension :=
  ⟨(c6_output_path_derivation Unit tc0 files1 shaderA0 opts0 ⟨true, ["out", "a.wgsl"]⟩ [5]
      .Spirv ⟨true, ["out"]⟩ ⟨false, ["x.wgsl"]⟩ ⟨false, ["y.wgsl"]⟩).1 (by decide),
    (c6_output_path_derivation Unit tc0 files1 shaderA0 opts0 ⟨true, ["out", "a.wgsl"]⟩ [5]
      .Spirv ⟨true, ["out"]⟩ ⟨false, ["x.wgsl"]⟩ ⟨false, ["y.wgsl"]⟩).2 rfl rfl (by decide)⟩

/-- The result of the concrete one-shader build: the gathered-count and
compiling notifications, one written file, exit code 0 — and no
build-completed notification. -/
def res0 : BuildResult :=
  ⟨[.shadersGathered 1, .compiling "a"], [(⟨true, ["out", "a.wgsl"]⟩, [5])], 0⟩

/-- C7 counterexample: a complete build run over one shader emits the
gathered and compiling notifications and signals the aggregate result,
but the event trace contains no build-completed notification — `build`
never invokes the fourth notification of the logger contract. -/
theorem c7_counterexample :
    build tc0 mfs0 files1 opts0 1 = some (.ok (.ret res0)) ∧
    LogEvent.completed ∉ res0.events :=
  ⟨by decide, by decide⟩

/-- C7 amended: after every worklist item has reported completion, the
core signals the aggregate result through the exit code (0 or 1) without
ever emitting the build-completed notification: the fourth notification
of the logger contract does not occur in any completed build's event
trace. -/
theorem c7_completed_never_emitted (M : Type) (tc : Toolchain M) (mfs : ManifestFs)
    (files : FileFs) (options : Options) (fuel : Nat) (res : BuildResult)
    (h : build tc mfs files options fuel = some (.ok (.ret res))) :
    LogEvent.completed ∉ res.events ∧ (res.exitCode = 0 ∨ res.exitCode = 1) := by
  rcases hg : gather_shaders mfs options.source_dir fuel with _ | g
  · simp only [build, hg] at h
    exact absurd h (by simp)
  · cases g with
    | error e =>
      simp only [build, hg] at h
      exact absurd h (by simp)
    | ok shaders =>
      obtain ⟨evs, ws, ok, heq, hok, hcount, hnc⟩ := runShaders_spec tc files options shaders
      simp only [build, hg, heq, PanicOr.map] at h
      have h' : (⟨.shadersGathered shaders.length :: evs, ws,
          if ok then 0 else 1⟩ : BuildResult) = res := by
        simpa using h
      subst h'
      constructor
      · intro hmem
        rcases List.mem_cons.mp hmem with h1 | h1
        · exact LogEvent.noConfusion h1
        · exact hnc _ h1 rfl
      · cases ok <;> simp

/-- C7 witness: the amended statement at the concrete one-shader build. -/
theorem c7_completed_never_emitted_witness :
    LogEvent.completed ∉ res0.events ∧ (res0.exitCode = 0 ∨ res0.exitCode = 1) :=
  c7_completed_never_emitted Unit tc0 mfs0 files1 opts0 1 res0 (by decide)

/-- C9: source format detection is a function of the file's extension
alone by case-sensitive exact match — extension "wgsl" detects format A,
"glsl" detects format B, any other extension (uppercase variants,
missing extensions) makes detection fail; a detection failure fails only
that shader with the cannot-guess-source-kind error, and the worklist
traversal still attempts every shader (one compilation-starting event
each), never aborting the build. -/
theorem c9_extension_detection (M : Type) (tc : Toolchain M) (files : FileFs)
    (options : Options) (p : FsPath) (s : String) (source : List Nat)
    (shader : ShaderToCompile) (shaders : List ShaderToCompile) :
    (p.extOf = some "wgsl" → ShaderSourceKind.guess p = some .Wgsl) ∧
    (p.extOf = some "glsl" → ShaderSourceKind.guess p = some .Glsl) ∧
    (p.extOf = some s → s ≠ "wgsl" → s ≠ "glsl" → ShaderSourceKind.guess p = none) ∧
    (p.extOf = none → ShaderSourceKind.guess p = none) ∧
    (ShaderSourceKind.guess shader.path = none →
      compile_source tc source shader options = .ret (.error .cannotGuessSourceKind)) ∧
    (∃ evs ws ok, runShaders tc files options shaders = .ret (evs, ws, ok) ∧
      (evs.filter LogEvent.isCompiling).length = shaders.length) := by
  refine ⟨?_, ?_, ?_, ?_, ?_, ?_⟩
  · intro h; simp [ShaderSourceKind.guess, h]
  · intro h; simp [ShaderSourceKind.guess, h]
  · intro h h1 h2; simp [ShaderSourceKind.guess, h, h1, h2]
  · intro h; simp [ShaderSourceKind.guess, h]
  · intro h; simp only [compile_source, h]
  · obtain ⟨evs, ws, ok, heq, _, hcount, _⟩ := runShaders_spec tc files options shaders
    exact ⟨evs, ws, ok, heq, hcount⟩

/-- C9 witness: detection at concrete extensions (including an uppercase
variant), the per-shader detection error, and a two-shader traversal in
which the failing shader does not prevent the other from being
attempted. -/
theorem c9_extension_detection_witness :
    ShaderSourceKind.guess ⟨false, ["w.wgsl"]⟩ = some .Wgsl ∧
    ShaderSourceKind.guess ⟨false, ["B.WGSL"]⟩ = none ∧
    compile_source tc0 [4] shaderBad0 opts0 = .ret (.error .cannotGuessSourceKind) ∧
    (∃ evs ws ok, runShaders tc0 files0 opts0 [shaderBad0, shaderWgsl0] = .ret (evs, ws, ok) ∧
      (evs.filter LogEvent.isCompiling).length = 2) :=
  ⟨(c9_extension_detection Unit tc0 files0 opts0 ⟨false, ["w.wgsl"]⟩ "wgsl" [4] shaderBad0
      [shaderBad0, shaderWgsl0]).1 (by decide),
    (c9_extension_detection Unit tc0 files0 opts0 ⟨false, ["B.WGSL"]⟩ "WGSL" [4] shaderBad0
      [shaderBad0, shaderWgsl0]).2.2.1 (by decide) (by decide) (by decide),
    (c9_extension_detection Unit tc0 files0 opts0 ⟨false, ["B.WGSL"]⟩ "WGSL" [4] shaderBad0
      [shaderBad0, shaderWgsl0]).2.2.2.2.1 (by decide),
    (c9_extension_detection Unit tc0 files0 opts0 ⟨false, ["B.WGSL"]⟩ "WGSL" [4] shaderBad0
      [shaderBad0, shaderWgsl0]).2.2.2.2.2⟩
